import Mathlib

/-!
Shallow embedding of `m4_loader.py` (M4comp2018py repository) together with
proofs about its behaviour.

Modelling conventions:

* Python exceptions are modelled by `Option`: a raised exception is `none`,
  normal return of `v` is `some v`.
* An rpy2 R value reachable from a record field is modelled by `RValue`:
  character vectors, numeric vectors, factor vectors (whose elements read
  through rpy2 indexing are the underlying integer codes), and opaque
  objects.  Double-precision payloads are abstracted as `Int` because the
  loader performs no arithmetic on them, only structural conversion.
* A Python dict is modelled as an association list built exclusively with
  `dictInsert`, which mirrors `d[k] = v`: overwrite in place if the key is
  present, append otherwise (preserving insertion order).
* The M4 handle (an rpy2 `ListVector` of records) is a `List MRecord`,
  addressed 1-based through `rx2i`, mirroring R's `M4[[i]]`.
-/

set_option autoImplicit false

namespace M4Loader

/-- An R value as seen through rpy2 from the loader: `value[0]` reads the
first element (for a factor, the integer level code), `np.array(value,
dtype=float)` reads the whole vector.  `other` is any further R object,
kept opaque. -/
inductive RValue where
  | chr : List String → RValue
  | num : List Int → RValue
  | factor : List Nat → RValue
  | other : Nat → RValue
deriving DecidableEq, Repr

/-- Python `str(value[0])`: first element of the vector rendered as a
string; fails (exception) on an empty vector or a non-indexable object.
For a factor, rpy2 indexing yields the integer level code, so the result
is the code rendered as a decimal string (codes are NOT translated to
labels). -/
def str0 : RValue → Option String
  | .chr vs => vs.head?
  | .num vs => vs.head?.map (fun v => toString v)
  | .factor cs => cs.head?.map (fun c => toString c)
  | .other _ => none

/-- Python `int(value[0])`: first element converted to an integer; for a
character vector the string must parse as an integer. -/
def int0 : RValue → Option Int
  | .chr vs => vs.head?.bind (fun v => v.toInt?)
  | .num vs => vs.head?
  | .factor cs => cs.head?.map (fun c => (c : Int))
  | .other _ => none

/-- Python `np.array(value, dtype=float)`: the whole vector as a float
array (doubles abstracted as `Int`); factor vectors yield their codes,
character vectors must parse elementwise, opaque objects fail. -/
def floats : RValue → Option (List Int)
  | .chr vs => vs.mapM (fun v => v.toInt?)
  | .num vs => some vs
  | .factor cs => some (cs.map (fun c => (c : Int)))
  | .other _ => none

/-- One M4 record: an R named list, i.e. an ordered list of
(field name, value) pairs.  Names may in principle repeat, as in R. -/
structure MRecord where
  fields : List (String × RValue)
deriving DecidableEq, Repr

/-- The M4 handle: the rpy2 `ListVector` of records. -/
abbrev M4Object : Type := List MRecord

/-- Length of the handle, `len(m4_r_object)`. -/
def m4len (m4 : M4Object) : Nat := List.length m4

/-- First-match association-list lookup, the semantics of Python
`dict.get` (keys unique) and of rpy2 `s.rx2(name)` / R `[[name]]`
(first occurrence); `none` when the key is absent. -/
def lookupAssoc {κ α : Type} [DecidableEq κ] (d : List (κ × α)) (k : κ) : Option α :=
  (d.find? (fun p => p.1 = k)).map Prod.snd

/-- Python `d[k] = v` on a dict: overwrite the existing entry in place if
present, otherwise append at the end. -/
def dictInsert {κ α : Type} [DecidableEq κ] : List (κ × α) → κ → α → List (κ × α)
  | [], k, v => [(k, v)]
  | p :: rest, k, v => if p.1 = k then (k, v) :: rest else p :: dictInsert rest k v

/-- R `m4_r_object[[index]]` with a 1-based index (`s = m4_r_object.rx2(index)`);
fails on an out-of-range index. -/
def rx2i (m4 : M4Object) (index : Nat) : Option MRecord :=
  if index = 0 then none else List.get? m4 (index - 1)

/-- rpy2 `s.rx2(name)`: the first field of the record with the given name;
reading a missing name fails once the result is used (R yields NULL, and
indexing NULL raises). -/
def rx2n (s : MRecord) (name : String) : Option RValue :=
  lookupAssoc s.fields name

/-- `PERIOD_LABEL_TO_CODE` from `m4_loader.py`. -/
def PERIOD_LABEL_TO_CODE : List (String × String) :=
  [("Daily", "1"), ("Hourly", "2"), ("Monthly", "3"),
   ("Quarterly", "4"), ("Weekly", "5"), ("Yearly", "6")]

/-- `TYPE_LABEL_TO_CODE` from `m4_loader.py`. -/
def TYPE_LABEL_TO_CODE : List (String × String) :=
  [("Demographic", "1"), ("Finance", "2"), ("Industry", "3"),
   ("Macro", "4"), ("Micro", "5"), ("Other", "6")]

/-- `get_m4_factor_codes(m4_r_object, index)`: read `period` and `type`
of record `index` and return both as code strings. -/
def get_m4_factor_codes (m4 : M4Object) (index : Nat) : Option (String × String) :=
  match rx2i m4 index with
  | none => none
  | some s =>
    ((rx2n s "period").bind str0).bind (fun period_code =>
    ((rx2n s "type").bind str0).bind (fun type_code =>
    some (period_code, type_code)))

/-- A Python value produced by the extractors: a numpy float array
(doubles abstracted as `Int`), a `str`, an `int`, or the raw rpy2 object
passed through unconverted. -/
inductive PyValue where
  | floatArr : List Int → PyValue
  | str : String → PyValue
  | int : Int → PyValue
  | raw : RValue → PyValue
deriving DecidableEq, Repr

/-- A Python dict with string keys, as built by the extractors. -/
abbrev PyDict : Type := List (String × PyValue)

/-- The per-field-name conversion chain of `extract_m4_series`
(`if name in [...]: ... elif ...: ... else: out[name] = value`). -/
def convert_field (name : String) (value : RValue) : Option PyValue :=
  if name ∈ ["x", "xx", "pt_ff", "up_ff", "low_ff"] then
    (floats value).map PyValue.floatArr
  else if name ∈ ["st"] then
    (str0 value).map PyValue.str
  else if name ∈ ["period", "type"] then
    (str0 value).map PyValue.str
  else if name ∈ ["n", "h"] then
    (int0 value).map PyValue.int
  else
    some (PyValue.raw value)

/-- One iteration of the `for name in names` loop of `extract_m4_series`:
`value = s.rx2(name)`, convert according to the field name, store with
`out[name] = ...`. -/
def extractStep (s : MRecord) (out : PyDict) (name : String) : Option PyDict :=
  match rx2n s name with
  | none => none
  | some value =>
    match convert_field name value with
    | none => none
    | some pv => some (dictInsert out name pv)

/-- `extract_m4_series(m4_r_object, index)`: convert every named field of
record `index` into a Python dict, by field name. -/
def extract_m4_series (m4 : M4Object) (index : Nat) : Option PyDict :=
  match rx2i m4 index with
  | none => none
  | some s => (s.fields.map Prod.fst).foldlM (extractStep s) []

/-- The value `extract_m4_series` stores for field `nm` of record `s`:
read the field by name, then convert it by name. -/
def fieldConv (s : MRecord) (nm : String) : Option PyValue :=
  (rx2n s nm).bind (convert_field nm)

/-- `get_m4_series_py(m4_r_object, index)`: the reduced single-record
extractor, building the fixed dict
`{st, n, h, period, type, x, xx}` with the same conversions. -/
def get_m4_series_py (m4 : M4Object) (index : Nat) : Option PyDict :=
  match rx2i m4 index with
  | none => none
  | some s =>
    ((rx2n s "st").bind str0).bind (fun st =>
    ((rx2n s "n").bind int0).bind (fun n =>
    ((rx2n s "h").bind int0).bind (fun h =>
    ((rx2n s "period").bind str0).bind (fun period_code =>
    ((rx2n s "type").bind str0).bind (fun type_code =>
    ((rx2n s "x").bind floats).bind (fun x =>
    ((rx2n s "xx").bind floats).bind (fun xx =>
    some [("st", PyValue.str st), ("n", PyValue.int n), ("h", PyValue.int h),
          ("period", PyValue.str period_code), ("type", PyValue.str type_code),
          ("x", PyValue.floatArr x), ("xx", PyValue.floatArr xx)])))))))

/-- `PERIOD_LABEL_TO_CODE.get(period) if period else None` /
`TYPE_LABEL_TO_CODE.get(type) if type else None`: a `None` or empty
(falsy) label yields no code, otherwise the table is consulted and an
absent label yields no code. -/
def labelToCode (table : List (String × String)) (label : Option String) : Option String :=
  match label with
  | none => none
  | some l => if l = "" then none else lookupAssoc table l

/-- `if period_code and p_code != period_code: continue` — the record is
skipped when the resolved code is truthy (non-`None`, non-empty) and the
stored code differs. -/
def skipCheck (c : Option String) (code : String) : Bool :=
  match c with
  | none => false
  | some s => if s = "" then false else decide (code ≠ s)

/-- `if max_series and count >= max_series: break` — the cap fires when
`max_series` is truthy (non-`None`, non-zero) and the match counter has
reached it. -/
def capReached (maxs : Option Int) (count : Nat) : Bool :=
  match maxs with
  | none => false
  | some m => if m = 0 then false else decide ((count : Int) ≥ m)

/-- The `for idx in range(1, n_total + 1)` loop of `filter_m4_series`,
with `remaining` positions still to scan starting at `idx`, the results
dict and the match counter accumulated so far. -/
def filterFrom (m4 : M4Object) (pc tc : Option String) (maxs : Option Int) :
    Nat → Nat → List (Nat × PyDict) → Nat → Option (List (Nat × PyDict))
  | _idx, 0, results, _count => some results
  | idx, remaining + 1, results, count =>
    match get_m4_factor_codes m4 idx with
    | none => none
    | some (p_code, t_code) =>
      if skipCheck pc p_code then
        filterFrom m4 pc tc maxs (idx + 1) remaining results count
      else if skipCheck tc t_code then
        filterFrom m4 pc tc maxs (idx + 1) remaining results count
      else
        match extract_m4_series m4 idx with
        | none => none
        | some d =>
          if capReached maxs (count + 1) then some (dictInsert results idx d)
          else filterFrom m4 pc tc maxs (idx + 1) remaining (dictInsert results idx d) (count + 1)

/-- `filter_m4_series(m4_r_object, period, type, max_series)`.  Labels are
resolved to codes, every position `1..len(m4)` is scanned in ascending
order, matching records are fully extracted into the results dict, and
the optional cap stops the scan once reached. -/
def filter_m4_series (m4 : M4Object) (period ty : Option String)
    (max_series : Option Int) : Option (List (Nat × PyDict)) :=
  let period_code := labelToCode PERIOD_LABEL_TO_CODE period
  let type_code := labelToCode TYPE_LABEL_TO_CODE ty
  filterFrom m4 period_code type_code max_series 1 (m4len m4) [] 0

/-- The record at position `i` passes the filter's two `continue` tests
for the given resolved codes (and its codes are readable at all). -/
def positionMatches (m4 : M4Object) (pc tc : Option String) (i : Nat) : Bool :=
  match get_m4_factor_codes m4 i with
  | some (p_code, t_code) => !skipCheck pc p_code && !skipCheck tc t_code
  | none => false

/-- Specification-side predicate for claim C1: the stored period code of
position `i` equals the given period code, and, when a type code is
given, the stored type code equals it (logical AND). -/
def storedCodesMatch (m4 : M4Object) (i : Nat) (pc tc : Option String) : Bool :=
  match get_m4_factor_codes m4 i with
  | some (p_code, t_code) =>
      (match pc with | some c => decide (p_code = c) | none => true) &&
      (match tc with | some c => decide (t_code = c) | none => true)
  | none => false

/-- Python `s.endswith(suffix)` on character lists: the last
`suffix.length` characters equal the suffix. -/
def endsWithChars (l suf : List Char) : Bool :=
  decide (List.drop (l.length - suf.length) l = suf)

/-- The member test of `extract_m4_rda_from_tarball`:
`name = member.name.lower()` then
`name.endswith("/data/m4.rda") or name.endswith("/data/m4.rdata")`.
Strings are handled as character lists (`String.data`) so that the test
is kernel-computable; `.lower()` is per-character lowercasing, which
agrees with Python on the ASCII member names of a tar archive. -/
def m4_member_match (name : String) : Bool :=
  let n := name.data.map Char.toLower
  endsWithChars n "/data/m4.rda".data || endsWithChars n "/data/m4.rdata".data

/-- Outcome of the member-discovery loop of `extract_m4_rda_from_tarball`:
either the selected member or the `FileNotFoundError` raised when the
listing is exhausted. -/
inductive ExtractOutcome where
  | notFound : ExtractOutcome
  | found : String → ExtractOutcome
deriving DecidableEq, Repr

/-- The `for member in tar.getmembers()` loop of
`extract_m4_rda_from_tarball` (lines 153-165), over the archive member
names in iteration order: keep the first matching member and break, raise
`FileNotFoundError` when no member matches. -/
def extract_m4_rda_member (members : List String) : ExtractOutcome :=
  match members.find? m4_member_match with
  | some m => ExtractOutcome.found m
  | none => ExtractOutcome.notFound

/-- An environment of named bindings in the foreign (R) runtime, values
of an arbitrary type `α`. -/
abbrev REnv (α : Type) : Type := List (String × α)

/-- `del globalenv["M4"]`-style removal of a binding. -/
def envErase {α : Type} (env : REnv α) (k : String) : REnv α :=
  env.filter (fun p => p.1 ≠ k)

/-- The effect of R `load(file)`: every object stored in the payload file
is bound (in order) into the global environment, overwriting existing
bindings.  Modelled from the spec: the foreign runtime's load instruction
itself is outside `src/` ("Instructs the foreign runtime to load the
payload file, which populates the reserved global binding"). -/
def rLoad {α : Type} (env : REnv α) (payload : REnv α) : REnv α :=
  payload.foldl (fun e p => dictInsert e p.1 p.2) env

/-- Result of `load_m4_r_object`: `FileNotFoundError`, the
`RuntimeError` raised when `"M4" not in globalenv` after the load
(carrying the final environment), or success with the final environment
and the handle bound to `"M4"`. -/
inductive LoadResult (α : Type) where
  | notFound : LoadResult α
  | loadError : REnv α → LoadResult α
  | ok : REnv α → α → LoadResult α
deriving DecidableEq, Repr

/-- `load_m4_r_object(rda_path)` (lines 182-229), over an abstract value
type `α` for R objects: fail with `FileNotFoundError` when the payload
file does not exist; otherwise clear any pre-existing `"M4"` binding
(`if "M4" in globalenv: del globalenv["M4"]`), run the load instruction,
fail with `RuntimeError` when `"M4"` is still unbound, and otherwise
return `globalenv["M4"]`. -/
def load_m4_r_object {α : Type} (fileExists : Bool) (payload : REnv α)
    (env : REnv α) : LoadResult α :=
  if fileExists = false then LoadResult.notFound
  else
    let env1 := if env.any (fun p => p.1 = "M4") then envErase env "M4" else env
    let env2 := rLoad env1 payload
    match lookupAssoc env2 "M4" with
    | none => LoadResult.loadError env2
    | some m4 => LoadResult.ok env2 m4

/-- `M4_TARBALL_PATH` from `config.py` (the `DATA_DIR` prefix is kept
abstract as the literal directory name). -/
def M4_TARBALL_PATH : String := "data/M4comp2018_0.2.0.tar.gz"

/-- The local-file state seen by `download_m4_tarball`: whether the
target file exists and its content (abstracted as a `Nat`). -/
structure DLState where
  present : Bool
  content : Nat
deriving DecidableEq, Repr

/-- Observable outcome of one `download_m4_tarball` call: the resulting
local-file state, the returned path, and whether network I/O
(`urllib.request.urlretrieve`) was performed. -/
structure DLOutcome where
  state : DLState
  path : String
  network : Bool
deriving DecidableEq, Repr

/-- `download_m4_tarball(force)` (lines 85-111): if the target file
exists and `force` is false, return the existing path with no network
activity; otherwise fetch the remote archive (network I/O), overwriting
the local file with the remote content. -/
def download_m4_tarball (force : Bool) (remote : Nat) (st : DLState) : DLOutcome :=
  if st.present && !force then { state := st, path := M4_TARBALL_PATH, network := false }
  else { state := { present := true, content := remote }, path := M4_TARBALL_PATH,
         network := true }

/-! Concrete sample data, used to instantiate the theorems below on
closed inputs. -/

/-- A well-formed yearly/macro record (period code 6, type code 4). -/
def recA : MRecord :=
  ⟨[("st", RValue.chr ["Y1"]), ("x", RValue.num [1, 2]), ("n", RValue.num [2]),
    ("type", RValue.factor [4]), ("h", RValue.num [1]),
    ("period", RValue.factor [6]), ("xx", RValue.num [3])]⟩

/-- A well-formed daily/micro record (period code 1, type code 5). -/
def recB : MRecord :=
  ⟨[("st", RValue.chr ["D7"]), ("x", RValue.num [5]), ("n", RValue.num [1]),
    ("type", RValue.factor [5]), ("h", RValue.num [1]),
    ("period", RValue.factor [1]), ("xx", RValue.num [9])]⟩

/-- `recA` with an extra field of a name the extractor does not know. -/
def recU : MRecord :=
  ⟨[("st", RValue.chr ["Y1"]), ("x", RValue.num [1, 2]), ("n", RValue.num [2]),
    ("type", RValue.factor [4]), ("h", RValue.num [1]),
    ("period", RValue.factor [6]), ("xx", RValue.num [3]),
    ("extra", RValue.other 7)]⟩

/-- A three-record sample handle: positions 1 and 3 are yearly/macro. -/
def m4ABA : M4Object := [recA, recB, recA]

/-- A single-record sample handle. -/
def m4A : M4Object := [recA]

/-- A single-record sample handle with no yearly record. -/
def m4B : M4Object := [recB]

/-- A single-record sample handle whose record has an unknown field. -/
def m4U : M4Object := [recU]

/-- `extract_m4_series` output for `recA`. -/
def outA : PyDict :=
  [("st", PyValue.str "Y1"), ("x", PyValue.floatArr [1, 2]), ("n", PyValue.int 2),
   ("type", PyValue.str "4"), ("h", PyValue.int 1),
   ("period", PyValue.str "6"), ("xx", PyValue.floatArr [3])]

/-- `get_m4_series_py` output for `recA`. -/
def pyA : PyDict :=
  [("st", PyValue.str "Y1"), ("n", PyValue.int 2), ("h", PyValue.int 1),
   ("period", PyValue.str "6"), ("type", PyValue.str "4"),
   ("x", PyValue.floatArr [1, 2]), ("xx", PyValue.floatArr [3])]

/-! Basic lemmas about association-list lookup and Python dict insertion. -/

section AssocLemmas

variable {κ α : Type} [DecidableEq κ]

@[simp]
theorem lookupAssoc_nil (k : κ) : lookupAssoc ([] : List (κ × α)) k = none := rfl

theorem lookupAssoc_cons (p : κ × α) (d : List (κ × α)) (k : κ) :
    lookupAssoc (p :: d) k = if p.1 = k then some p.2 else lookupAssoc d k := by
  by_cases h : p.1 = k <;> simp [lookupAssoc, List.find?_cons, h]

theorem lookupAssoc_isSome_iff (d : List (κ × α)) (k : κ) :
    (lookupAssoc d k).isSome ↔ k ∈ d.map Prod.fst := by
  induction d with
  | nil => simp
  | cons p rest ih =>
    rw [lookupAssoc_cons]
    by_cases h : p.1 = k
    · simp [h]
    · simp only [h, if_false, List.map_cons, List.mem_cons]
      rw [ih]
      constructor
      · intro hm
        exact Or.inr hm
      · intro hm
        rcases hm with hm | hm
        · exact absurd hm.symm h
        · exact hm

theorem lookupAssoc_mem {d : List (κ × α)} {k : κ} {v : α}
    (h : lookupAssoc d k = some v) : (k, v) ∈ d := by
  unfold lookupAssoc at h
  cases hf : d.find? (fun p => p.1 = k) with
  | none =>
    rw [hf] at h
    simp at h
  | some p =>
    rw [hf] at h
    simp only [Option.map_some'] at h
    have hmem := List.mem_of_find?_eq_some hf
    have hpred := List.find?_some hf
    simp only [decide_eq_true_eq] at hpred
    have hp : p = (k, v) := by
      obtain ⟨p1, p2⟩ := p
      simp only at hpred h
      injection h with h2
      rw [hpred, h2]
    rw [hp] at hmem
    exact hmem

theorem dictInsert_lookup_self (d : List (κ × α)) (k : κ) (v : α) :
    lookupAssoc (dictInsert d k v) k = some v := by
  induction d with
  | nil => simp [dictInsert, lookupAssoc_cons]
  | cons p rest ih =>
    by_cases hp : p.1 = k
    · simp [dictInsert, hp, lookupAssoc_cons]
    · simp [dictInsert, hp, lookupAssoc_cons, ih]

theorem dictInsert_lookup_ne (d : List (κ × α)) (k k' : κ) (v : α) (h : k' ≠ k) :
    lookupAssoc (dictInsert d k v) k' = lookupAssoc d k' := by
  have hkk : ¬k = k' := fun hc => h hc.symm
  induction d with
  | nil => simp [dictInsert, lookupAssoc_cons, hkk]
  | cons p rest ih =>
    by_cases hp : p.1 = k
    · subst hp
      simp [dictInsert, lookupAssoc_cons, hkk]
    · simp only [dictInsert, hp, if_false]
      rw [lookupAssoc_cons, lookupAssoc_cons, ih]

theorem dictInsert_of_not_mem {d : List (κ × α)} {k : κ} (v : α)
    (h : k ∉ d.map Prod.fst) : dictInsert d k v = d ++ [(k, v)] := by
  induction d with
  | nil => rfl
  | cons p rest ih =>
    simp only [List.map_cons, List.mem_cons] at h
    push_neg at h
    have hp : ¬p.1 = k := fun hc => h.1 hc.symm
    simp [dictInsert, hp, ih h.2]

end AssocLemmas

/-! Lemmas about the field-conversion loop of `extract_m4_series`. -/

theorem extractStep_eq_some {s : MRecord} {acc acc' : PyDict} {n : String}
    (h : extractStep s acc n = some acc') :
    ∃ pv, fieldConv s n = some pv ∧ acc' = dictInsert acc n pv := by
  unfold extractStep at h
  cases hv : rx2n s n with
  | none =>
    rw [hv] at h
    simp at h
  | some v =>
    rw [hv] at h
    dsimp only at h
    cases hc : convert_field n v with
    | none =>
      rw [hc] at h
      simp at h
    | some pv =>
      rw [hc] at h
      dsimp only at h
      simp only [Option.some.injEq] at h
      refine ⟨pv, ?_, h.symm⟩
      simp [fieldConv, hv, hc]

theorem extractStep_of_fieldConv {s : MRecord} {n : String} {pv : PyValue} (acc : PyDict)
    (h : fieldConv s n = some pv) : extractStep s acc n = some (dictInsert acc n pv) := by
  unfold fieldConv at h
  cases hv : rx2n s n with
  | none =>
    rw [hv] at h
    simp at h
  | some v =>
    rw [hv] at h
    simp only [Option.some_bind] at h
    unfold extractStep
    rw [hv]
    dsimp only
    rw [h]

/-- After a successful run of the conversion loop, the dict's entry at
any name processed by the loop is exactly the by-name conversion of that
field; other entries are those of the starting accumulator. -/
theorem foldlM_extractStep_lookup (s : MRecord) :
    ∀ (names : List String) (acc out : PyDict),
      names.foldlM (extractStep s) acc = some out →
      ∀ nm, lookupAssoc out nm =
        if nm ∈ names then fieldConv s nm else lookupAssoc acc nm := by
  intro names
  induction names with
  | nil =>
    intro acc out h nm
    simp only [List.foldlM_nil] at h
    simp only [Option.pure_def, Option.some.injEq] at h
    subst h
    simp
  | cons n rest ih =>
    intro acc out h nm
    rw [List.foldlM_cons] at h
    cases hstep : extractStep s acc n with
    | none =>
      rw [hstep] at h
      simp at h
    | some acc' =>
      rw [hstep] at h
      simp only [Option.bind_eq_bind, Option.some_bind] at h
      obtain ⟨pv, hconv, hacc⟩ := extractStep_eq_some hstep
      subst hacc
      have hrest := ih _ out h
      by_cases hmem : nm ∈ rest
      · rw [hrest nm]
        simp [hmem]
      · rw [hrest nm]
        by_cases hn : nm = n
        · subst hn
          simp [hmem, dictInsert_lookup_self, hconv]
        · simp [hmem, hn, dictInsert_lookup_ne _ _ _ _ hn]

/-- The conversion loop succeeds as soon as every processed field
converts. -/
theorem foldlM_extractStep_isSome (s : MRecord) :
    ∀ (names : List String) (acc : PyDict),
      (∀ nm ∈ names, (fieldConv s nm).isSome) →
      (names.foldlM (extractStep s) acc).isSome := by
  intro names
  induction names with
  | nil =>
    intro acc _
    simp
  | cons n rest ih =>
    intro acc hok
    rw [List.foldlM_cons]
    have h1 := hok n (List.mem_cons_self n rest)
    obtain ⟨pv, hpv⟩ := Option.isSome_iff_exists.mp h1
    rw [extractStep_of_fieldConv acc hpv]
    simp only [Option.bind_eq_bind, Option.some_bind]
    exact ih _ (fun nm hm => hok nm (List.mem_cons_of_mem _ hm))

theorem convert_field_x (v : RValue) :
    convert_field "x" v = (floats v).map PyValue.floatArr := rfl

theorem convert_field_xx (v : RValue) :
    convert_field "xx" v = (floats v).map PyValue.floatArr := rfl

theorem convert_field_pt_ff (v : RValue) :
    convert_field "pt_ff" v = (floats v).map PyValue.floatArr := rfl

theorem convert_field_up_ff (v : RValue) :
    convert_field "up_ff" v = (floats v).map PyValue.floatArr := rfl

theorem convert_field_low_ff (v : RValue) :
    convert_field "low_ff" v = (floats v).map PyValue.floatArr := rfl

theorem convert_field_st (v : RValue) :
    convert_field "st" v = (str0 v).map PyValue.str := rfl

theorem convert_field_period (v : RValue) :
    convert_field "period" v = (str0 v).map PyValue.str := rfl

theorem convert_field_type (v : RValue) :
    convert_field "type" v = (str0 v).map PyValue.str := rfl

theorem convert_field_n (v : RValue) :
    convert_field "n" v = (int0 v).map PyValue.int := rfl

theorem convert_field_h (v : RValue) :
    convert_field "h" v = (int0 v).map PyValue.int := rfl

/-- A field with any name outside the ten recognized ones is passed
through unconverted, and this conversion never fails. -/
theorem convert_field_other {name : String} (v : RValue)
    (h : name ∉ (["x", "xx", "pt_ff", "up_ff", "low_ff",
                  "st", "period", "type", "n", "h"] : List String)) :
    convert_field name v = some (PyValue.raw v) := by
  simp only [List.mem_cons, List.not_mem_nil, or_false] at h
  push_neg at h
  obtain ⟨h1, h2, h3, h4, h5, h6, h7, h8, h9, h10⟩ := h
  unfold convert_field
  simp [List.mem_cons, h1, h2, h3, h4, h5, h6, h7, h8, h9, h10]

/-- The first conversion branch, for any of the five sequence fields. -/
theorem convert_field_seq {name : String} (v : RValue)
    (h : name ∈ (["x", "xx", "pt_ff", "up_ff", "low_ff"] : List String)) :
    convert_field name v = (floats v).map PyValue.floatArr := by
  unfold convert_field
  rw [if_pos h]

/-- Reading a present field name always yields a value. -/
theorem rx2n_isSome_of_mem {s : MRecord} {name : String}
    (h : name ∈ s.fields.map Prod.fst) : (rx2n s name).isSome := by
  rw [rx2n, lookupAssoc_isSome_iff]
  exact h

/-- Claim C2: `extract_m4_series` converts fields by name — the five
sequence fields become float arrays, `st`/`period`/`type` become the
first scalar as a string (codes verbatim), `n`/`h` become the first
scalar as an integer, and a field with any other name is passed through
unconverted, so the extractor succeeds whenever the ten recognized
conversions succeed, regardless of unexpected schema additions. -/
theorem extract_policy_by_name (m4 : M4Object) (index : Nat) (s : MRecord)
    (hs : rx2i m4 index = some s)
    (hok : ∀ p ∈ s.fields,
        p.1 ∈ (["x", "xx", "pt_ff", "up_ff", "low_ff",
                "st", "period", "type", "n", "h"] : List String) →
        (convert_field p.1 p.2).isSome) :
    ∃ out, extract_m4_series m4 index = some out ∧
      ∀ name ∈ s.fields.map Prod.fst, ∃ v, rx2n s name = some v ∧
        ((name ∈ (["x", "xx", "pt_ff", "up_ff", "low_ff"] : List String) →
            ∃ ds, floats v = some ds ∧
              lookupAssoc out name = some (PyValue.floatArr ds)) ∧
         ((name = "st" ∨ name = "period" ∨ name = "type") →
            ∃ sv, str0 v = some sv ∧
              lookupAssoc out name = some (PyValue.str sv)) ∧
         ((name = "n" ∨ name = "h") →
            ∃ iv, int0 v = some iv ∧
              lookupAssoc out name = some (PyValue.int iv)) ∧
         (name ∉ (["x", "xx", "pt_ff", "up_ff", "low_ff",
                   "st", "period", "type", "n", "h"] : List String) →
            lookupAssoc out name = some (PyValue.raw v))) := by
  have hconv : ∀ nm ∈ s.fields.map Prod.fst, (fieldConv s nm).isSome := by
    intro nm hnm
    obtain ⟨v, hv⟩ := Option.isSome_iff_exists.mp (rx2n_isSome_of_mem hnm)
    rw [fieldConv, hv, Option.some_bind]
    by_cases hsp : nm ∈ (["x", "xx", "pt_ff", "up_ff", "low_ff",
                          "st", "period", "type", "n", "h"] : List String)
    · exact hok (nm, v) (lookupAssoc_mem hv) hsp
    · rw [convert_field_other v hsp]
      rfl
  obtain ⟨out, hout⟩ := Option.isSome_iff_exists.mp
    (foldlM_extractStep_isSome s (s.fields.map Prod.fst) [] hconv)
  have hext : extract_m4_series m4 index = some out := by
    unfold extract_m4_series
    rw [hs]
    exact hout
  refine ⟨out, hext, ?_⟩
  intro name hname
  obtain ⟨v, hv⟩ := Option.isSome_iff_exists.mp (rx2n_isSome_of_mem hname)
  have hlook := foldlM_extractStep_lookup s (s.fields.map Prod.fst) [] out hout name
  rw [if_pos hname] at hlook
  have hfc : fieldConv s name = convert_field name v := by
    rw [fieldConv, hv, Option.some_bind]
  rw [hfc] at hlook
  have hcs : (convert_field name v).isSome := by
    have hh := hconv name hname
    rw [hfc] at hh
    exact hh
  refine ⟨v, hv, ?_, ?_, ?_, ?_⟩
  · intro hseq
    rw [convert_field_seq v hseq] at hlook hcs
    cases hfl : floats v with
    | none =>
      rw [hfl] at hcs
      simp at hcs
    | some ds =>
      rw [hfl] at hlook
      refine ⟨ds, rfl, ?_⟩
      simpa using hlook
  · intro hstr
    have hcf : convert_field name v = (str0 v).map PyValue.str := by
      rcases hstr with h | h | h <;> subst h
      · exact convert_field_st v
      · exact convert_field_period v
      · exact convert_field_type v
    rw [hcf] at hlook hcs
    cases hsv : str0 v with
    | none =>
      rw [hsv] at hcs
      simp at hcs
    | some sv =>
      rw [hsv] at hlook
      refine ⟨sv, rfl, ?_⟩
      simpa using hlook
  · intro hint
    have hcf : convert_field name v = (int0 v).map PyValue.int := by
      rcases hint with h | h <;> subst h
      · exact convert_field_n v
      · exact convert_field_h v
    rw [hcf] at hlook hcs
    cases hiv : int0 v with
    | none =>
      rw [hiv] at hcs
      simp at hcs
    | some iv =>
      rw [hiv] at hlook
      refine ⟨iv, rfl, ?_⟩
      simpa using hlook
  · intro hother
    rw [convert_field_other v hother] at hlook
    exact hlook

/-- Claim C2 witness: the policy theorem instantiated on the concrete
one-record handle `m4U`, whose record carries an unknown extra field. -/
theorem extract_policy_by_name_witness :
    rx2i m4U 1 = some recU ∧
    (∀ p ∈ recU.fields,
        p.1 ∈ (["x", "xx", "pt_ff", "up_ff", "low_ff",
                "st", "period", "type", "n", "h"] : List String) →
        (convert_field p.1 p.2).isSome) ∧
    (∃ out, extract_m4_series m4U 1 = some out ∧
      ∀ name ∈ recU.fields.map Prod.fst, ∃ v, rx2n recU name = some v ∧
        ((name ∈ (["x", "xx", "pt_ff", "up_ff", "low_ff"] : List String) →
            ∃ ds, floats v = some ds ∧
              lookupAssoc out name = some (PyValue.floatArr ds)) ∧
         ((name = "st" ∨ name = "period" ∨ name = "type") →
            ∃ sv, str0 v = some sv ∧
              lookupAssoc out name = some (PyValue.str sv)) ∧
         ((name = "n" ∨ name = "h") →
            ∃ iv, int0 v = some iv ∧
              lookupAssoc out name = some (PyValue.int iv)) ∧
         (name ∉ (["x", "xx", "pt_ff", "up_ff", "low_ff",
                   "st", "period", "type", "n", "h"] : List String) →
            lookupAssoc out name = some (PyValue.raw v)))) :=
  ⟨rfl, by decide, extract_policy_by_name m4U 1 recU rfl (by decide)⟩

/-- After a successful conversion loop, the output dict's entry at a
readable field name is that field's by-name conversion. -/
theorem extract_lookup_eq (s : MRecord) (out : PyDict)
    (hout : (s.fields.map Prod.fst).foldlM (extractStep s) [] = some out)
    {name : String} {v : RValue} (hv : rx2n s name = some v) :
    lookupAssoc out name = convert_field name v := by
  have hname : name ∈ s.fields.map Prod.fst := by
    rw [← lookupAssoc_isSome_iff s.fields name]
    rw [show lookupAssoc s.fields name = rx2n s name from rfl, hv]
    rfl
  have hlook := foldlM_extractStep_lookup s _ [] out hout name
  rw [if_pos hname] at hlook
  rw [hlook, fieldConv, hv, Option.some_bind]

/-- Claim C6: on any record where both succeed, the reduced extractor
`get_m4_series_py` returns exactly the restriction of
`extract_m4_series` to the field subset `{st, n, h, period, type, x, xx}`:
its key list is that subset and both extractors agree on every one of
those fields. -/
theorem get_py_restricts_full_extract (m4 : M4Object) (index : Nat) (out py : PyDict)
    (hful : extract_m4_series m4 index = some out)
    (hpy : get_m4_series_py m4 index = some py) :
    py.map Prod.fst = ["st", "n", "h", "period", "type", "x", "xx"] ∧
    ∀ name ∈ (["st", "n", "h", "period", "type", "x", "xx"] : List String),
      lookupAssoc py name = lookupAssoc out name := by
  unfold get_m4_series_py at hpy
  unfold extract_m4_series at hful
  cases hs : rx2i m4 index with
  | none =>
    rw [hs] at hpy
    simp at hpy
  | some s =>
    rw [hs] at hpy hful
    dsimp only at hpy hful
    simp only [Option.bind_eq_some, Option.some.injEq] at hpy
    obtain ⟨st, ⟨stv, hstv, hst0⟩, n, ⟨nv, hnv, hn0⟩, hval, ⟨hv', hhv, hh0⟩,
      pc, ⟨pv, hpv, hp0⟩, tc, ⟨tv, htv, ht0⟩, x, ⟨xv, hxv, hx0⟩,
      xx, ⟨xxv, hxxv, hxx0⟩, hfin⟩ := hpy
    subst hfin
    refine ⟨rfl, ?_⟩
    intro name hname
    simp only [List.mem_cons, List.not_mem_nil, or_false] at hname
    rcases hname with rfl | rfl | rfl | rfl | rfl | rfl | rfl
    · rw [extract_lookup_eq s out hful hstv, convert_field_st, hst0]
      rfl
    · rw [extract_lookup_eq s out hful hnv, convert_field_n, hn0]
      rfl
    · rw [extract_lookup_eq s out hful hhv, convert_field_h, hh0]
      rfl
    · rw [extract_lookup_eq s out hful hpv, convert_field_period, hp0]
      rfl
    · rw [extract_lookup_eq s out hful htv, convert_field_type, ht0]
      rfl
    · rw [extract_lookup_eq s out hful hxv, convert_field_x, hx0]
      rfl
    · rw [extract_lookup_eq s out hful hxxv, convert_field_xx, hxx0]
      rfl

/-- Claim C6 witness: the refinement theorem instantiated on the
concrete one-record handle `m4A`. -/
theorem get_py_restricts_full_extract_witness :
    extract_m4_series m4A 1 = some outA ∧
    get_m4_series_py m4A 1 = some pyA ∧
    (pyA.map Prod.fst = ["st", "n", "h", "period", "type", "x", "xx"] ∧
     ∀ name ∈ (["st", "n", "h", "period", "type", "x", "xx"] : List String),
       lookupAssoc pyA name = lookupAssoc outA name) :=
  ⟨by decide, by decide,
   get_py_restricts_full_extract m4A 1 outA pyA (by decide) (by decide)⟩

/-! Lemmas about the scanning loop of `filter_m4_series`. -/

theorem positionMatches_false_of_skip_p {m4 : M4Object} {pc tc : Option String}
    {idx : Nat} {p_code t_code : String}
    (hg : get_m4_factor_codes m4 idx = some (p_code, t_code))
    (hp : skipCheck pc p_code = true) :
    positionMatches m4 pc tc idx = false := by
  unfold positionMatches
  rw [hg]
  simp [hp]

theorem positionMatches_false_of_skip_t {m4 : M4Object} {pc tc : Option String}
    {idx : Nat} {p_code t_code : String}
    (hg : get_m4_factor_codes m4 idx = some (p_code, t_code))
    (ht : skipCheck tc t_code = true) :
    positionMatches m4 pc tc idx = false := by
  unfold positionMatches
  rw [hg]
  simp [ht]

theorem positionMatches_true {m4 : M4Object} {pc tc : Option String}
    {idx : Nat} {p_code t_code : String}
    (hg : get_m4_factor_codes m4 idx = some (p_code, t_code))
    (hp : skipCheck pc p_code = false) (ht : skipCheck tc t_code = false) :
    positionMatches m4 pc tc idx = true := by
  unfold positionMatches
  rw [hg]
  simp [hp, ht]

/-- With no cap, a successful scan appends to the accumulated dict
exactly the matching positions of the scanned range, in order. -/
theorem filterFrom_nocap (m4 : M4Object) (pc tc : Option String) :
    ∀ (r idx : Nat) (results : List (Nat × PyDict)) (count : Nat)
      (res : List (Nat × PyDict)),
      (∀ key ∈ results.map Prod.fst, key < idx) →
      filterFrom m4 pc tc none idx r results count = some res →
      res.map Prod.fst =
        results.map Prod.fst ++
          (List.range' idx r).filter (positionMatches m4 pc tc) := by
  intro r
  induction r with
  | zero =>
    intro idx results count res hkeys h
    unfold filterFrom at h
    simp only [Option.some.injEq] at h
    subst h
    simp
  | succ n ih =>
    intro idx results count res hkeys h
    unfold filterFrom at h
    cases hg : get_m4_factor_codes m4 idx with
    | none =>
      rw [hg] at h
      simp at h
    | some ptc =>
      rw [hg] at h
      obtain ⟨p_code, t_code⟩ := ptc
      dsimp only at h
      rw [List.range'_succ, List.filter_cons]
      cases hp : skipCheck pc p_code with
      | true =>
        rw [hp, if_pos rfl] at h
        have hres := ih (idx + 1) results count res
          (fun key hk => Nat.lt_succ_of_lt (hkeys key hk)) h
        rw [hres, positionMatches_false_of_skip_p hg hp]
        simp
      | false =>
        rw [hp, if_neg (by simp)] at h
        cases ht : skipCheck tc t_code with
        | true =>
          rw [ht, if_pos rfl] at h
          have hres := ih (idx + 1) results count res
            (fun key hk => Nat.lt_succ_of_lt (hkeys key hk)) h
          rw [hres, positionMatches_false_of_skip_t hg ht]
          simp
        | false =>
          rw [ht, if_neg (by simp)] at h
          cases he : extract_m4_series m4 idx with
          | none =>
            rw [he] at h
            simp at h
          | some d =>
            rw [he] at h
            dsimp only at h
            rw [if_neg (by simp [capReached])] at h
            have hidx : idx ∉ results.map Prod.fst := by
              intro hc
              exact absurd (hkeys idx hc) (Nat.lt_irrefl idx)
            rw [dictInsert_of_not_mem d hidx] at h
            have hkeys' : ∀ key ∈ (results ++ [(idx, d)]).map Prod.fst, key < idx + 1 := by
              intro key hk
              simp only [List.map_append, List.mem_append] at hk
              rcases hk with hk | hk
              · exact Nat.lt_succ_of_lt (hkeys key hk)
              · simp at hk
                rw [hk]
                exact Nat.lt_succ_self idx
            have hres := ih (idx + 1) (results ++ [(idx, d)]) (count + 1) res hkeys' h
            rw [hres, positionMatches_true hg hp ht]
            simp

/-- Every code stored in the period table is a non-empty string. -/
theorem period_code_ne_empty {pl cp : String}
    (h : lookupAssoc PERIOD_LABEL_TO_CODE pl = some cp) : cp ≠ "" := by
  have hm : cp ∈ PERIOD_LABEL_TO_CODE.map Prod.snd :=
    List.mem_map_of_mem Prod.snd (lookupAssoc_mem h)
  simp only [PERIOD_LABEL_TO_CODE, List.map_cons, List.map_nil, List.mem_cons,
    List.not_mem_nil, or_false] at hm
  rcases hm with rfl | rfl | rfl | rfl | rfl | rfl <;> decide

/-- Every code stored in the type table is a non-empty string. -/
theorem type_code_ne_empty {tl ct : String}
    (h : lookupAssoc TYPE_LABEL_TO_CODE tl = some ct) : ct ≠ "" := by
  have hm : ct ∈ TYPE_LABEL_TO_CODE.map Prod.snd :=
    List.mem_map_of_mem Prod.snd (lookupAssoc_mem h)
  simp only [TYPE_LABEL_TO_CODE, List.map_cons, List.map_nil, List.mem_cons,
    List.not_mem_nil, or_false] at hm
  rcases hm with rfl | rfl | rfl | rfl | rfl | rfl <;> decide

/-- A label found in a table that does not contain the empty-string key
resolves through the truthiness test to its code. -/
theorem labelToCode_of_lookup {table : List (String × String)} {l c : String}
    (hnil : lookupAssoc table "" = none)
    (h : lookupAssoc table l = some c) : labelToCode table (some l) = some c := by
  unfold labelToCode
  dsimp only
  by_cases hl : l = ""
  · subst hl
    rw [hnil] at h
    exact absurd h (by simp)
  · rw [if_neg hl]
    exact h

/-- For a non-empty constraint code (as all table codes are), passing
the skip test is exactly stored-code equality. -/
theorem not_skipCheck_some {c code : String} (hc : c ≠ "") :
    (!skipCheck (some c) code) = decide (code = c) := by
  unfold skipCheck
  dsimp only
  rw [if_neg hc]
  by_cases hpe : code = c <;> simp [hpe]

/-- When the resolved codes are non-empty (as all table codes are), the
loop's skip tests coincide with code equality: a position passes the
filter exactly when its stored codes equal the active constraint codes. -/
theorem positionMatches_eq_storedCodesMatch (m4 : M4Object) (i : Nat)
    (pc tc : Option String)
    (hpc : ∀ c, pc = some c → c ≠ "")
    (htc : ∀ c, tc = some c → c ≠ "") :
    positionMatches m4 pc tc i = storedCodesMatch m4 i pc tc := by
  unfold positionMatches storedCodesMatch
  cases hg : get_m4_factor_codes m4 i with
  | none => rfl
  | some ptc =>
    obtain ⟨p, t⟩ := ptc
    dsimp only
    cases pc with
    | none =>
      cases tc with
      | none => rfl
      | some ct =>
        rw [not_skipCheck_some (htc ct rfl)]
        rfl
    | some cp' =>
      cases tc with
      | none =>
        rw [not_skipCheck_some (hpc cp' rfl)]
        rfl
      | some ct =>
        rw [not_skipCheck_some (hpc cp' rfl), not_skipCheck_some (htc ct rfl)]

/-- Claim C1: with no cap, a successful `filter_m4_series` run with a
recognized period label (and an optional recognized type label) returns
a dict keyed by exactly the 1-based positions whose stored period code
equals the label's code and, when a type label is given, whose stored
type code equals its code — both constraints conjoined, and no other
positions. -/
theorem filter_nocap_key_set (m4 : M4Object) (pl : String) (tl : Option String)
    (cp : String)
    (hp : lookupAssoc PERIOD_LABEL_TO_CODE pl = some cp)
    (ht : ∀ t, tl = some t → ∃ ct, lookupAssoc TYPE_LABEL_TO_CODE t = some ct)
    (res : List (Nat × PyDict))
    (h : filter_m4_series m4 (some pl) tl none = some res) :
    res.map Prod.fst =
      (List.range' 1 (m4len m4)).filter
        (fun i => storedCodesMatch m4 i (some cp)
          (tl.bind (fun t => lookupAssoc TYPE_LABEL_TO_CODE t))) := by
  have hpc : labelToCode PERIOD_LABEL_TO_CODE (some pl) = some cp :=
    labelToCode_of_lookup (by decide) hp
  have htc : labelToCode TYPE_LABEL_TO_CODE tl =
      tl.bind (fun t => lookupAssoc TYPE_LABEL_TO_CODE t) := by
    cases tl with
    | none => rfl
    | some t =>
      obtain ⟨ct, hct⟩ := ht t rfl
      rw [labelToCode_of_lookup (by decide) hct]
      rw [Option.some_bind, hct]
  unfold filter_m4_series at h
  rw [hpc, htc] at h
  have hkeys := filterFrom_nocap m4 (some cp)
    (tl.bind (fun t => lookupAssoc TYPE_LABEL_TO_CODE t))
    (m4len m4) 1 [] 0 res (by simp) h
  rw [hkeys]
  simp only [List.map_nil, List.nil_append]
  apply List.filter_congr
  intro i _
  apply positionMatches_eq_storedCodesMatch
  · intro c hc
    injection hc with hc
    subst hc
    exact period_code_ne_empty hp
  · intro c hc
    cases tl with
    | none => simp at hc
    | some t =>
      rw [Option.some_bind] at hc
      exact type_code_ne_empty hc

/-- Claim C1 witness: the key-set theorem instantiated on the concrete
three-record handle `m4ABA` with labels Yearly and Macro (codes 6, 4);
positions 1 and 3 match. -/
theorem filter_nocap_key_set_witness :
    lookupAssoc PERIOD_LABEL_TO_CODE "Yearly" = some "6" ∧
    filter_m4_series m4ABA (some "Yearly") (some "Macro") none =
      some [(1, outA), (3, outA)] ∧
    ([(1, outA), (3, outA)] : List (Nat × PyDict)).map Prod.fst =
      (List.range' 1 (m4len m4ABA)).filter
        (fun i => storedCodesMatch m4ABA i (some "6")
          ((some "Macro").bind (fun t => lookupAssoc TYPE_LABEL_TO_CODE t))) :=
  ⟨by decide, by decide,
   filter_nocap_key_set m4ABA "Yearly" (some "Macro") "6" (by decide)
     (by
       intro t htt
       injection htt with htt
       subst htt
       exact ⟨"4", by decide⟩)
     [(1, outA), (3, outA)] (by decide)⟩

/-- For a positive integer cap, the loop's truthiness-guarded cap test
is exactly `count >= max_series`. -/
theorem capReached_cast (k count : Nat) (hk : 0 < k) :
    capReached (some (k : Int)) count = decide (k ≤ count) := by
  unfold capReached
  dsimp only
  rw [if_neg (by exact_mod_cast hk.ne')]
  rw [decide_eq_decide, ge_iff_le]
  exact_mod_cast Iff.rfl

/-- With a positive cap `k`, `count < k` matches so far, and at least
`k - count` matching positions in the remaining range, a successful scan
extends the accumulated dict by exactly the `k - count` lowest matching
positions. -/
theorem filterFrom_cap (m4 : M4Object) (pc tc : Option String) (k : Nat) (hk : 0 < k) :
    ∀ (r idx : Nat) (results : List (Nat × PyDict)) (count : Nat)
      (res : List (Nat × PyDict)),
      (∀ key ∈ results.map Prod.fst, key < idx) →
      count < k →
      k - count ≤ ((List.range' idx r).filter (positionMatches m4 pc tc)).length →
      filterFrom m4 pc tc (some (k : Int)) idx r results count = some res →
      res.map Prod.fst =
        results.map Prod.fst ++
          ((List.range' idx r).filter (positionMatches m4 pc tc)).take (k - count) := by
  intro r
  induction r with
  | zero =>
    intro idx results count res hkeys hcount hlen h
    simp only [List.range'_zero, List.filter_nil, List.length_nil] at hlen
    omega
  | succ n ih =>
    intro idx results count res hkeys hcount hlen h
    unfold filterFrom at h
    cases hg : get_m4_factor_codes m4 idx with
    | none =>
      rw [hg] at h
      simp at h
    | some ptc =>
      rw [hg] at h
      obtain ⟨p_code, t_code⟩ := ptc
      dsimp only at h
      rw [List.range'_succ, List.filter_cons] at hlen ⊢
      cases hp : skipCheck pc p_code with
      | true =>
        rw [hp, if_pos rfl] at h
        rw [positionMatches_false_of_skip_p hg hp] at hlen ⊢
        simp only [Bool.false_eq_true, if_false] at hlen ⊢
        exact ih (idx + 1) results count res
          (fun key hk' => Nat.lt_succ_of_lt (hkeys key hk')) hcount hlen h
      | false =>
        rw [hp, if_neg (by simp)] at h
        cases ht : skipCheck tc t_code with
        | true =>
          rw [ht, if_pos rfl] at h
          rw [positionMatches_false_of_skip_t hg ht] at hlen ⊢
          simp only [Bool.false_eq_true, if_false] at hlen ⊢
          exact ih (idx + 1) results count res
            (fun key hk' => Nat.lt_succ_of_lt (hkeys key hk')) hcount hlen h
        | false =>
          rw [ht, if_neg (by simp)] at h
          cases he : extract_m4_series m4 idx with
          | none =>
            rw [he] at h
            simp at h
          | some d =>
            rw [he] at h
            dsimp only at h
            rw [positionMatches_true hg hp ht] at hlen ⊢
            rw [if_pos rfl] at hlen ⊢
            simp only [List.length_cons] at hlen
            have hidx : idx ∉ results.map Prod.fst := by
              intro hc
              exact absurd (hkeys idx hc) (Nat.lt_irrefl idx)
            rw [dictInsert_of_not_mem d hidx] at h
            rw [capReached_cast k (count + 1) hk] at h
            by_cases hc : k ≤ count + 1
            · rw [if_pos (show decide (k ≤ count + 1) = true by simp [hc])] at h
              simp only [Option.some.injEq] at h
              subst h
              have h1 : k - count = 1 := by omega
              rw [h1, List.take_succ_cons, List.take_zero]
              simp
            · rw [if_neg (show ¬decide (k ≤ count + 1) = true by simp [hc])] at h
              have hlt : count + 1 < k := by omega
              have hlen' : k - (count + 1) ≤
                  ((List.range' (idx + 1) n).filter (positionMatches m4 pc tc)).length := by
                omega
              have hkeys' : ∀ key ∈ (results ++ [(idx, d)]).map Prod.fst,
                  key < idx + 1 := by
                intro key hk'
                simp only [List.map_append, List.mem_append] at hk'
                rcases hk' with hk' | hk'
                · exact Nat.lt_succ_of_lt (hkeys key hk')
                · simp at hk'
                  rw [hk']
                  exact Nat.lt_succ_self idx
              have hres := ih (idx + 1) (results ++ [(idx, d)]) (count + 1) res
                hkeys' hlt hlen' h
              rw [hres]
              rw [show k - count = (k - count - 1) + 1 from by omega, List.take_succ_cons]
              simp
              omega

/-- Claim C3: with a positive cap `k` and more than `k` matching
records, a successful `filter_m4_series` run returns exactly `k`
entries, keyed by the `k` lowest matching positions (the first `k`
matches of the ascending scan). -/
theorem filter_cap_lowest_k (m4 : M4Object) (period ty : Option String) (k : Nat)
    (hk : 0 < k) (res : List (Nat × PyDict))
    (hmore : k < ((List.range' 1 (m4len m4)).filter
        (positionMatches m4 (labelToCode PERIOD_LABEL_TO_CODE period)
          (labelToCode TYPE_LABEL_TO_CODE ty))).length)
    (h : filter_m4_series m4 period ty (some (k : Int)) = some res) :
    res.map Prod.fst =
      ((List.range' 1 (m4len m4)).filter
        (positionMatches m4 (labelToCode PERIOD_LABEL_TO_CODE period)
          (labelToCode TYPE_LABEL_TO_CODE ty))).take k ∧
    res.length = k := by
  unfold filter_m4_series at h
  have hres := filterFrom_cap m4 (labelToCode PERIOD_LABEL_TO_CODE period)
    (labelToCode TYPE_LABEL_TO_CODE ty) k hk (m4len m4) 1 [] 0 res
    (by simp) hk (by omega) h
  constructor
  · rw [hres]
    simp
  · have hlm : res.length = (res.map Prod.fst).length := (List.length_map _ _).symm
    rw [hlm, hres]
    simp only [List.map_nil, List.nil_append, Nat.sub_zero, List.length_take]
    exact min_eq_left (le_of_lt hmore)

/-- Claim C3 witness: the cap theorem instantiated on `m4ABA` with label
Yearly (matches at positions 1 and 3) and cap 1; only position 1 is
returned. -/
theorem filter_cap_lowest_k_witness :
    (0 : Nat) < 1 ∧
    1 < ((List.range' 1 (m4len m4ABA)).filter
        (positionMatches m4ABA (labelToCode PERIOD_LABEL_TO_CODE (some "Yearly"))
          (labelToCode TYPE_LABEL_TO_CODE none))).length ∧
    filter_m4_series m4ABA (some "Yearly") none (some ((1 : Nat) : Int)) =
      some [(1, outA)] ∧
    (([(1, outA)] : List (Nat × PyDict)).map Prod.fst =
      ((List.range' 1 (m4len m4ABA)).filter
        (positionMatches m4ABA (labelToCode PERIOD_LABEL_TO_CODE (some "Yearly"))
          (labelToCode TYPE_LABEL_TO_CODE none))).take 1 ∧
     ([(1, outA)] : List (Nat × PyDict)).length = 1) :=
  ⟨by decide, by decide, by decide,
   filter_cap_lowest_k m4ABA (some "Yearly") none 1 (by decide) [(1, outA)]
     (by decide) (by decide)⟩

/-- A cap of `0` is falsy, so the cap test never fires and the scan is
the uncapped scan. -/
theorem filterFrom_cap_zero (m4 : M4Object) (pc tc : Option String) :
    ∀ (r idx : Nat) (results : List (Nat × PyDict)) (count : Nat),
      filterFrom m4 pc tc (some 0) idx r results count =
        filterFrom m4 pc tc none idx r results count := by
  intro r
  induction r with
  | zero =>
    intro idx results count
    rfl
  | succ n ih =>
    intro idx results count
    unfold filterFrom
    cases hg : get_m4_factor_codes m4 idx with
    | none => rfl
    | some ptc =>
      obtain ⟨p_code, t_code⟩ := ptc
      dsimp only
      cases hp : skipCheck pc p_code with
      | true =>
        simp only [eq_self_iff_true, if_true]
        exact ih (idx + 1) results count
      | false =>
        simp only [Bool.false_eq_true, if_false]
        cases ht : skipCheck tc t_code with
        | true =>
          simp only [eq_self_iff_true, if_true]
          exact ih (idx + 1) results count
        | false =>
          simp only [Bool.false_eq_true, if_false]
          cases he : extract_m4_series m4 idx with
          | none => rfl
          | some d =>
            dsimp only
            rw [show capReached (some 0) (count + 1) = false from rfl,
                show capReached none (count + 1) = false from rfl]
            simp only [Bool.false_eq_true, if_false]
            exact ih (idx + 1) (dictInsert results idx d) (count + 1)

/-- Claim C10: the truthiness tests of `filter_m4_series` make
`max_series=0` behave as no cap (all matches returned, not zero), and an
empty-string period or type label behave as no constraint on that
dimension. -/
theorem filter_falsy_zero_and_empty_label (m4 : M4Object) (period ty : Option String)
    (maxs : Option Int) :
    filter_m4_series m4 period ty (some 0) = filter_m4_series m4 period ty none ∧
    filter_m4_series m4 (some "") ty maxs = filter_m4_series m4 none ty maxs ∧
    filter_m4_series m4 period (some "") maxs = filter_m4_series m4 period none maxs := by
  refine ⟨?_, ?_, ?_⟩
  · unfold filter_m4_series
    exact filterFrom_cap_zero m4 _ _ (m4len m4) 1 [] 0
  · rfl
  · rfl

/-- Claim C7: a label absent from its code table resolves to `None`, so
the filter behaves exactly as if no constraint had been given on that
dimension. -/
theorem filter_unknown_label_no_constraint (m4 : M4Object) (pl t2 : String)
    (period ty : Option String) (maxs : Option Int) :
    (lookupAssoc PERIOD_LABEL_TO_CODE pl = none →
      filter_m4_series m4 (some pl) ty maxs = filter_m4_series m4 none ty maxs) ∧
    (lookupAssoc TYPE_LABEL_TO_CODE t2 = none →
      filter_m4_series m4 period (some t2) maxs = filter_m4_series m4 period none maxs) := by
  constructor
  · intro hun
    unfold filter_m4_series
    have hcode : labelToCode PERIOD_LABEL_TO_CODE (some pl) = none := by
      unfold labelToCode
      dsimp only
      by_cases hl : pl = ""
      · rw [if_pos hl]
      · rw [if_neg hl]
        exact hun
    rw [hcode]
    rfl
  · intro hun
    unfold filter_m4_series
    have hcode : labelToCode TYPE_LABEL_TO_CODE (some t2) = none := by
      unfold labelToCode
      dsimp only
      by_cases hl : t2 = ""
      · rw [if_pos hl]
      · rw [if_neg hl]
        exact hun
    rw [hcode]
    rfl

/-- Claim C7 witness: the unknown-label theorem instantiated with the
unrecognized labels "Anual" and "Bank" on the concrete handle `m4ABA`. -/
theorem filter_unknown_label_no_constraint_witness :
    lookupAssoc PERIOD_LABEL_TO_CODE "Anual" = none ∧
    filter_m4_series m4ABA (some "Anual") none none =
      filter_m4_series m4ABA none none none ∧
    lookupAssoc TYPE_LABEL_TO_CODE "Bank" = none ∧
    filter_m4_series m4ABA none (some "Bank") none =
      filter_m4_series m4ABA none none none :=
  ⟨by decide,
   (filter_unknown_label_no_constraint m4ABA "Anual" "Bank" none none none).1 (by decide),
   by decide,
   (filter_unknown_label_no_constraint m4ABA "Anual" "Bank" none none none).2 (by decide)⟩

/-- A scan over positions that all have readable codes and all fail the
filter accumulates nothing and cannot fail. -/
theorem filterFrom_no_match (m4 : M4Object) (pc tc : Option String) (maxs : Option Int) :
    ∀ (r idx : Nat) (results : List (Nat × PyDict)) (count : Nat),
      (∀ i ∈ List.range' idx r, (get_m4_factor_codes m4 i).isSome ∧
        positionMatches m4 pc tc i = false) →
      filterFrom m4 pc tc maxs idx r results count = some results := by
  intro r
  induction r with
  | zero =>
    intro idx results count _
    rfl
  | succ n ih =>
    intro idx results count hall
    obtain ⟨hsome, hfalse⟩ := hall idx (by
      rw [List.range'_succ]
      exact List.mem_cons_self _ _)
    obtain ⟨ptc, hg⟩ := Option.isSome_iff_exists.mp hsome
    obtain ⟨p_code, t_code⟩ := ptc
    have hrest : ∀ i ∈ List.range' (idx + 1) n, (get_m4_factor_codes m4 i).isSome ∧
        positionMatches m4 pc tc i = false := by
      intro i hi
      exact hall i (by
        rw [List.range'_succ]
        exact List.mem_cons_of_mem _ hi)
    have hskip : skipCheck pc p_code = true ∨ skipCheck tc t_code = true := by
      unfold positionMatches at hfalse
      rw [hg] at hfalse
      dsimp only at hfalse
      cases hsp : skipCheck pc p_code with
      | true => exact Or.inl rfl
      | false =>
        cases hst : skipCheck tc t_code with
        | true => exact Or.inr rfl
        | false =>
          rw [hsp, hst] at hfalse
          simp at hfalse
    unfold filterFrom
    rw [hg]
    dsimp only
    cases hsp : skipCheck pc p_code with
    | true =>
      rw [if_pos rfl]
      exact ih (idx + 1) results count hrest
    | false =>
      rw [if_neg (by simp)]
      rcases hskip with hskip | hskip
      · rw [hsp] at hskip
        exact absurd hskip (by simp)
      · rw [hskip, if_pos rfl]
        exact ih (idx + 1) results count hrest

/-- Claim C9: a filter invocation whose active constraints match no
record (all codes readable) returns the empty dict and does not raise. -/
theorem filter_no_match_empty (m4 : M4Object) (period ty : Option String)
    (maxs : Option Int)
    (hall : ∀ i ∈ List.range' 1 (m4len m4), (get_m4_factor_codes m4 i).isSome ∧
        positionMatches m4 (labelToCode PERIOD_LABEL_TO_CODE period)
          (labelToCode TYPE_LABEL_TO_CODE ty) i = false) :
    filter_m4_series m4 period ty maxs = some [] := by
  unfold filter_m4_series
  exact filterFrom_no_match m4 _ _ maxs (m4len m4) 1 [] 0 hall

/-- Claim C9 witness: the no-match theorem instantiated on the concrete
daily-only handle `m4B` filtered by the label Yearly. -/
theorem filter_no_match_empty_witness :
    (∀ i ∈ List.range' 1 (m4len m4B), (get_m4_factor_codes m4B i).isSome ∧
        positionMatches m4B (labelToCode PERIOD_LABEL_TO_CODE (some "Yearly"))
          (labelToCode TYPE_LABEL_TO_CODE none) i = false) ∧
    filter_m4_series m4B (some "Yearly") none none = some [] :=
  ⟨by decide, filter_no_match_empty m4B (some "Yearly") none none (by decide)⟩

/-! The archive-member discovery loop (claim C4). -/

/-- The first element satisfying a predicate is the head of the list
after dropping the non-satisfying prefix. -/
theorem find?_eq_head_dropWhile (p : String → Bool) (l : List String) :
    l.find? p = (l.dropWhile (fun x => !p x)).head? := by
  induction l with
  | nil => rfl
  | cons a l ih =>
    cases hp : p a with
    | true => simp [List.find?_cons, List.dropWhile_cons, hp]
    | false => simp [List.find?_cons, List.dropWhile_cons, hp, ih]

/-- Claim C4: over any archive member listing, the extractor selects
exactly the first member in iteration order whose lowercased name ends
with `/data/m4.rda` or `/data/m4.rdata`, and reports not-found exactly
when no member matches. -/
theorem member_selection_first_match (members : List String) (m : String) :
    (extract_m4_rda_member members = ExtractOutcome.found m ↔
      (members.dropWhile (fun x => !m4_member_match x)).head? = some m) ∧
    (extract_m4_rda_member members = ExtractOutcome.notFound ↔
      ∀ x ∈ members, m4_member_match x = false) := by
  constructor
  · rw [← find?_eq_head_dropWhile]
    unfold extract_m4_rda_member
    cases hf : members.find? m4_member_match with
    | none => simp
    | some m' => simp
  · unfold extract_m4_rda_member
    cases hf : members.find? m4_member_match with
    | none =>
      have hall : ∀ x ∈ members, m4_member_match x = false := by
        simp only [List.find?_eq_none] at hf
        intro x hx
        have hx' := hf x hx
        simpa using hx'
      constructor
      · intro _
        exact hall
      · intro _
        rfl
    | some m' =>
      simp only [List.find?_eq_none]
      constructor
      · intro hc
        exact absurd hc (by simp)
      · intro hall
        have := List.find?_some hf
        rw [hall m' (List.mem_of_find?_eq_some hf)] at this
        exact absurd this (by simp)

/-- Claim C4 witness: the selection theorem instantiated on a concrete
member listing — the uppercase `.RData` member is selected ahead of a
later `.rda` member, and a listing with no data member is not-found. -/
theorem member_selection_first_match_witness :
    extract_m4_rda_member
      ["M4comp2018/DESCRIPTION", "M4comp2018/data/M4.RData",
       "M4comp2018/data/M4.rda"] =
      ExtractOutcome.found "M4comp2018/data/M4.RData" ∧
    extract_m4_rda_member ["M4comp2018/DESCRIPTION", "M4comp2018/R/zzz.R"] =
      ExtractOutcome.notFound :=
  ⟨(member_selection_first_match
      ["M4comp2018/DESCRIPTION", "M4comp2018/data/M4.RData",
       "M4comp2018/data/M4.rda"] "M4comp2018/data/M4.RData").1.mpr (by decide),
   (member_selection_first_match
      ["M4comp2018/DESCRIPTION", "M4comp2018/R/zzz.R"] "").2.mpr (by decide)⟩

/-! The foreign-runtime load bridge (claim C5). -/

/-- The conditional clear (`if "M4" in globalenv: del globalenv["M4"]`)
always leaves the environment without an `"M4"` binding, and is the
plain erase. -/
theorem clear_step_eq_envErase {α : Type} (env : REnv α) :
    (if env.any (fun p => p.1 = "M4") then envErase env "M4" else env) =
      envErase env "M4" := by
  by_cases h : env.any (fun p => p.1 = "M4") = true
  · rw [if_pos h]
  · rw [if_neg h]
    symm
    apply List.filter_eq_self.mpr
    intro p hp
    simp only [List.any_eq_true, not_exists] at h
    push_neg at h
    have := h p hp
    simp only [decide_eq_true_eq] at this
    simp [this]

/-- Erasing `"M4"` removes the binding. -/
theorem envErase_lookup {α : Type} (env : REnv α) :
    lookupAssoc (envErase env "M4") "M4" = none := by
  induction env with
  | nil => rfl
  | cons p rest ih =>
    unfold envErase at ih ⊢
    rw [List.filter_cons]
    by_cases hp : p.1 = "M4"
    · rw [if_neg (by simp [hp])]
      exact ih
    · rw [if_pos (by simp [hp])]
      rw [lookupAssoc_cons, if_neg hp]
      exact ih

/-- Loading a payload that does not define a name leaves that name's
binding unchanged. -/
theorem rLoad_lookup_not_mem {α : Type} (payload : REnv α) :
    ∀ (env : REnv α) (k : String), k ∉ payload.map Prod.fst →
      lookupAssoc (rLoad env payload) k = lookupAssoc env k := by
  induction payload with
  | nil =>
    intro env k _
    rfl
  | cons p rest ih =>
    intro env k h
    simp only [List.map_cons, List.mem_cons] at h
    push_neg at h
    have hstep : rLoad env (p :: rest) = rLoad (dictInsert env p.1 p.2) rest := rfl
    rw [hstep, ih (dictInsert env p.1 p.2) k h.2]
    exact dictInsert_lookup_ne env p.1 k p.2 h.1

/-- Claim C5: the load bridge fails not-found when the payload file is
absent; otherwise it first clears any stale `"M4"` binding, so if the
payload does not define `"M4"` the call fails with a load error and no
`"M4"` binding exists afterwards (stale state cannot leak through), and
if the final environment binds `"M4"` the call returns that handle. -/
theorem load_m4_r_object_contract {α : Type} (payload : REnv α) (env : REnv α) :
    (load_m4_r_object false payload env = LoadResult.notFound) ∧
    ("M4" ∉ payload.map Prod.fst →
      load_m4_r_object true payload env =
        LoadResult.loadError (rLoad (envErase env "M4") payload) ∧
      lookupAssoc (rLoad (envErase env "M4") payload) "M4" = none) ∧
    (∀ m, lookupAssoc (rLoad (envErase env "M4") payload) "M4" = some m →
      load_m4_r_object true payload env =
        LoadResult.ok (rLoad (envErase env "M4") payload) m) := by
  refine ⟨rfl, ?_, ?_⟩
  · intro h
    have hnone : lookupAssoc (rLoad (envErase env "M4") payload) "M4" = none := by
      rw [rLoad_lookup_not_mem payload (envErase env "M4") "M4" h]
      exact envErase_lookup env
    refine ⟨?_, hnone⟩
    unfold load_m4_r_object
    rw [if_neg (by simp), clear_step_eq_envErase]
    dsimp only
    rw [hnone]
  · intro m hm
    unfold load_m4_r_object
    rw [if_neg (by simp), clear_step_eq_envErase]
    dsimp only
    rw [hm]

/-- Claim C5 witness: the load contract instantiated on concrete
environments over `Nat` values — a missing file, a payload that does not
define `"M4"` against a stale environment, and a payload that does. -/
theorem load_m4_r_object_contract_witness :
    load_m4_r_object (α := Nat) false [("M4", 1)] [] = LoadResult.notFound ∧
    ("M4" ∉ ([("A", 2)] : REnv Nat).map Prod.fst) ∧
    load_m4_r_object true [("A", 2)] [("M4", 9)] =
      LoadResult.loadError (rLoad (envErase ([("M4", 9)] : REnv Nat) "M4") [("A", 2)]) ∧
    lookupAssoc (rLoad (envErase ([("M4", 9)] : REnv Nat) "M4") [("M4", 7)]) "M4" =
      some 7 ∧
    load_m4_r_object true [("M4", 7)] [("M4", 9)] =
      LoadResult.ok (rLoad (envErase ([("M4", 9)] : REnv Nat) "M4") [("M4", 7)]) 7 :=
  ⟨(load_m4_r_object_contract [("M4", 1)] []).1,
   by decide,
   ((load_m4_r_object_contract [("A", 2)] [("M4", 9)]).2.1 (by decide)).1,
   by decide,
   (load_m4_r_object_contract [("M4", 7)] [("M4", 9)]).2.2 7 (by decide)⟩

/-- Claim C8: with `force=false`, an existing file is returned without
network I/O; calling the fetcher twice with `force=false` performs
network I/O at most on the first call, returns the same path
(`M4_TARBALL_PATH`) both times, and the second call leaves the
local-file state of the first call unchanged. -/
theorem download_idempotent_force_false (remote remote2 : Nat) (st : DLState) :
    (st.present = true →
      download_m4_tarball false remote st =
        { state := st, path := M4_TARBALL_PATH, network := false }) ∧
    ((download_m4_tarball false remote2
        (download_m4_tarball false remote st).state).network = false ∧
     (download_m4_tarball false remote2
        (download_m4_tarball false remote st).state).state =
       (download_m4_tarball false remote st).state ∧
     (download_m4_tarball false remote st).path = M4_TARBALL_PATH ∧
     (download_m4_tarball false remote2
        (download_m4_tarball false remote st).state).path = M4_TARBALL_PATH) := by
  constructor
  · intro h
    unfold download_m4_tarball
    rw [if_pos (by simp [h])]
  · by_cases hp : st.present = true
    · simp [download_m4_tarball, hp]
    · have hp' : st.present = false := by simpa using hp
      simp [download_m4_tarball, hp']

/-- Claim C8 witness: the idempotence theorem instantiated on a state
where the tarball already exists. -/
theorem download_idempotent_force_false_witness :
    (DLState.mk true 9).present = true ∧
    download_m4_tarball false 5 (DLState.mk true 9) =
      { state := DLState.mk true 9, path := M4_TARBALL_PATH, network := false } :=
  ⟨rfl, (download_idempotent_force_false 5 5 (DLState.mk true 9)).1 rfl⟩

end M4Loader
